import Mathlib

/-!
Verification of the secure-index subsystem of the `search` repository
(an SSE index in the style of the Z-IDX construction).

The repository ships the test files `secure_index_searcher_test.go` and
`client_test.go`; the implementation files they exercise (the index
builder, the trapdoor function, the server-side matcher, the store and
the client) are not part of the source tree here, so the definitions
below are modelled from the written design (sections 4 and 6 of the
specification), which documents those components in detail.  Byte
strings are modelled as lists of naturals and the PRF primitive is an
abstract function parameter, following the plug-point design note.
-/

namespace SearchIndex

/-- Byte strings, modelled as lists of naturals. -/
abbrev Bytes := List Nat

/-- Modelled from the spec: the PRF primitive (missing file with the
keyed hash, section 4.1).  A keyed deterministic function from a key and
a message to a byte string; the design abstracts it as a
take-key-take-message-return-bytes capability, so here it is a plain
function parameter. -/
abbrev Prf := Bytes → Bytes → Bytes

/-- Modelled from the spec: ASCII whitespace bytes, the separators the
tokenizer splits on (section 4.4). -/
def isWS (b : Nat) : Bool :=
  b == 32 || b == 9 || b == 10 || b == 13 || b == 11 || b == 12

/-- Modelled from the spec: tokenizer worker.  Walks the byte stream
keeping the current in-progress token reversed in the accumulator;
whitespace closes the token, and empty tokens are not emitted. -/
def tokenizeAux : List Nat → List Nat → List Bytes
  | [], acc => if acc = [] then [] else [acc.reverse]
  | b :: rest, acc =>
    if isWS b then
      if acc = [] then tokenizeAux rest []
      else acc.reverse :: tokenizeAux rest []
    else tokenizeAux rest (b :: acc)

/-- Modelled from the spec: tokenization of a document byte stream by
splitting on ASCII whitespace, tokens emitted as-is (section 4.4). -/
def tokenize (content : Bytes) : List Bytes :=
  tokenizeAux content []

/-- Modelled from the spec: interpretation of a byte string as a
big-endian unsigned integer, used by the bit-position mapping
(section 4.3). -/
def beNat (t : Bytes) : Nat :=
  t.foldl (fun a b => 256 * a + b) 0

/-- Modelled from the spec: the client-side index builder state
(section 2 item 3, section 3).  It owns the master secret and carries
the folder parameters: the ordered salts, the index bit length M
(`size`) and the expected unique-word upper bound n used for padding. -/
structure SecureIndexBuilder where
  ms : Bytes
  salts : List Bytes
  size : Nat
  n : Nat
deriving DecidableEq

/-- Modelled from the spec: the trapdoor function (section 4.2).  The
word is mapped to the ordered k-tuple whose element for salt s is
prf(s, prf(MS, word)): a two-stage PRF, once per salt, in salt order. -/
def ComputeTrapdoors (prf : Prf) (sib : SecureIndexBuilder) (w : Bytes) : List Bytes :=
  sib.salts.map (fun s => prf s (prf sib.ms w))

/-- Modelled from the spec: the bit-position mapping (section 4.3).
Each trapdoor element, read as a big-endian integer, is reduced modulo
the index size to a position in [0, size). -/
def bitPositions (size : Nat) (trap : List Bytes) : List Nat :=
  trap.map (fun t => beNat t % size)

/-- Modelled from the spec: the synthetic-word message for blind
padding, an injective encoding of the pair (docID, counter) fed to the
PRF (section 4.4 step 4).  Base-256 digits of each number, with a
separator no digit can equal. -/
def padMsg (docID c : Nat) : Bytes :=
  Nat.digits 256 docID ++ 256 :: Nat.digits 256 c

/-- Modelled from the spec: the synthetic trapdoor for pad entry
`c` of a document, produced from (MS, docID, counter) through the same
two-stage trapdoor construction (section 4.4 step 4). -/
def synthTrapdoor (prf : Prf) (sib : SecureIndexBuilder) (docID c : Nat) : List Bytes :=
  ComputeTrapdoors prf sib (padMsg docID c)

/-- Reads bit `p` of a bit array; positions outside the array read 0. -/
def bitGet (bs : List Bool) (p : Nat) : Bool :=
  bs.getD p false

/-- Sets every position of the list `ps` to 1 in the bit array. -/
def setPositions (bs : List Bool) (ps : List Nat) : List Bool :=
  ps.foldl (fun b i => b.set i true) bs

/-- Folds a family of position lists over the bit array, setting all of
them; used once for the unique words and once for the pad counters. -/
def applyAll (posOf : α → List Nat) (bs : List Bool) (xs : List α) : List Bool :=
  xs.foldl (fun b x => setPositions b (posOf x)) bs

/-- Modelled from the spec: a secure index is a document identifier
together with an opaque bit array of length M (section 3). -/
structure SecureIndex where
  docID : Nat
  bits : List Bool
deriving DecidableEq

/-- Modelled from the spec: positions contributed by one word of the
document, its trapdoor pushed through the bit-position mapping. -/
def wordPositions (prf : Prf) (sib : SecureIndexBuilder) (w : Bytes) : List Nat :=
  bitPositions sib.size (ComputeTrapdoors prf sib w)

/-- Modelled from the spec: positions contributed by one pad counter. -/
def padPositions (prf : Prf) (sib : SecureIndexBuilder) (docID c : Nat) : List Nat :=
  bitPositions sib.size (synthTrapdoor prf sib docID c)

/-- Modelled from the spec: the index builder (section 4.4).  Computes
the set U of unique tokens, sets the bits of every trapdoor of every
unique word in a zero bit array of length M, then applies blind padding:
max(0, n - |U|) synthetic trapdoors driven by a counter.  The declared
length argument is carried for signature fidelity but tokenization works
on the bytes actually read, as the failure-mode note prescribes. -/
def BuildSecureIndex (prf : Prf) (sib : SecureIndexBuilder) (docID : Nat)
    (content : Bytes) (_fileLen : Nat) : SecureIndex :=
  let U := (tokenize content).dedup
  let pad := sib.n - U.length
  let bits1 := applyAll (wordPositions prf sib) (List.replicate sib.size false) U
  let bits2 := applyAll (padPositions prf sib docID) bits1 (List.range pad)
  { docID := docID, bits := bits2 }

/-- Modelled from the spec: the server-side matcher test on one index
(section 4.5).  An index matches a trapdoor iff every trapdoor element,
reduced by the same modular mapping the builder used, lands on a set
bit. -/
def SearchSecureIndex (idx : SecureIndex) (trap : List Bytes) : Bool :=
  (bitPositions idx.bits.length trap).all (fun p => bitGet idx.bits p)

/-- Modelled from the spec: the server-side store, a mapping from docID
to secure index (section 4.5), modelled as a list of indexes keyed by
their docID field. -/
abbrev IndexStore := List SecureIndex

/-- Modelled from the spec: insert or replace by docID (section 4.5). -/
def WriteIndex (store : IndexStore) (idx : SecureIndex) : IndexStore :=
  store.filter (fun e => e.docID != idx.docID) ++ [idx]

/-- Modelled from the spec: rebind the same bits under a new docID; a
no-op success when the old docID is absent (sections 4.5 and 6). -/
def RenameIndex (store : IndexStore) (origID currID : Nat) : IndexStore :=
  store.map (fun e => if e.docID = origID then { e with docID := currID } else e)

/-- Modelled from the spec: remove by docID; a no-op success when the
docID is absent (sections 4.5 and 6). -/
def DeleteIndex (store : IndexStore) (docID : Nat) : IndexStore :=
  store.filter (fun e => e.docID != docID)

/-- Modelled from the spec: the server-side search, iterating the known
indexes and returning the docIDs whose index matches the trapdoor
(section 4.5). -/
def SearchWord (store : IndexStore) (trap : List Bytes) : List Nat :=
  (store.filter (fun e => SearchSecureIndex e trap)).map (fun e => e.docID)

/-- One entry of the client state as client.go keeps it
(client_test.go lines 309 to 316): the lookup table binds a docID to a
filename, and the content under that docID can be fetched from the
server by getFile (lines 407 to 427), which succeeds exactly when the
docID is in the lookup table.  The model joins the table entry with the
fetchable content; table keys are the decimal strings written by
AddFile, represented here by their numeric value. -/
structure ClientDoc where
  docID : Nat
  filename : String
  content : Bytes
deriving DecidableEq

/-- Lookup of a docID in the client table, as the Go map access does. -/
def lookupDoc (table : List ClientDoc) (d : Nat) : Option ClientDoc :=
  table.find? (fun e => e.docID == d)

/-- The filename and content downloaded for one candidate docID. -/
def fileOf (table : List ClientDoc) (d : Nat) : Option (String × Bytes) :=
  (lookupDoc table d).map (fun e => (e.filename, e.content))

/-- The external grep process run by searchWordHelper
(client_test.go line 442): grep -lZw word files prints, in argument
order, the names of the files whose content matches the word.  The
matching predicate itself, word-boundary regular-expression matching,
belongs to the grep binary outside this repository, so it is kept as
the function parameter `gmatch`. -/
def grepFiles (gmatch : Bytes → Bytes → Bool) (files : List (String × Bytes))
    (w : Bytes) : List String :=
  (files.filter (fun f => gmatch f.2 w)).map (fun f => f.1)

/-- Outcome of a Go float64 division whose operands are
exactly-represented integers: a finite value (carried here as the exact
rational, only finiteness matters below), a signed infinity, or NaN for
the 0/0 case. -/
inductive F64 where
  | finite (q : ℚ)
  | posInf
  | negInf
  | nan
deriving DecidableEq

/-- Whether a float64 outcome is a finite number. -/
def F64.isFinite : F64 → Bool
  | F64.finite _ => true
  | _ => false

/-- Go float64 division on integer operands: a zero denominator yields
NaN when the numerator is also zero and a signed infinity otherwise. -/
def divF64 (a b : Int) : F64 :=
  if b = 0 then
    if a = 0 then F64.nan
    else if 0 < a then F64.posInf
    else F64.negInf
  else F64.finite ((a : ℚ) / (b : ℚ))

/-- The download loop of searchWordHelper (client_test.go lines 435 to
441): each candidate docID is fetched in order via getFile, which
fails with invalid document ID when the docID is not in the lookup
table. -/
def downloadFiles (table : List ClientDoc) : List Nat → Except String (List (String × Bytes))
  | [] => Except.ok []
  | d :: rest =>
    match lookupDoc table d with
    | none => Except.error "invalid document ID"
    | some e =>
      match downloadFiles table rest with
      | Except.error msg => Except.error msg
      | Except.ok fs => Except.ok ((e.filename, e.content) :: fs)

/-- searchWordHelper from client.go (client_test.go lines 429 to 449):
downloads every candidate document, runs grep -lZw over the files, and
returns the matching filenames together with the false-positive rate
(len(possibleDocs) - len(filenames)) / (len(lookupTable) - len(filenames)),
a float64 division written with no guard on the denominator. -/
def searchWordHelper (gmatch : Bytes → Bytes → Bool) (table : List ClientDoc)
    (w : Bytes) (possibleDocs : List Nat) : Except String (List String × F64) :=
  match downloadFiles table possibleDocs with
  | Except.error msg => Except.error msg
  | Except.ok files =>
    let filenames := grepFiles gmatch files w
    Except.ok (filenames,
      divF64 ((possibleDocs.length : Int) - (filenames.length : Int))
        ((table.length : Int) - (filenames.length : Int)))

/-- SearchWord from client.go (client_test.go lines 451 to 457): asks
the server for the candidate docIDs of the trapdoors of the word and
funnels them through searchWordHelper.  The server lives in a package
outside this repository, so its answer is the parameter
`serverResult`. -/
def ClientSearchWord (gmatch : Bytes → Bytes → Bool) (table : List ClientDoc)
    (serverResult : List Nat) (w : Bytes) : Except String (List String × F64) :=
  searchWordHelper gmatch table w serverResult

/-- SearchWordNaive from client.go (client_test.go lines 459 to 471):
uses every docID of the lookup table as a candidate and funnels the
list through the same searchWordHelper.  The Atoi branch for
non-numeric table keys is unreachable here because the model carries
the numeric value of the keys AddFile writes; Go map iteration order is
modelled by the list order of the table. -/
def ClientSearchWordNaive (gmatch : Bytes → Bytes → Bool) (table : List ClientDoc)
    (w : Bytes) : Except String (List String × F64) :=
  searchWordHelper gmatch table w (table.map (fun e => e.docID))

/-- The basename step of path.Split used by AddFile (client_test.go
line 361): everything after the final slash. -/
def basenameChars : List Char → List Char → List Char
  | [], acc => acc.reverse
  | c :: rest, acc =>
    if c = '/' then basenameChars rest []
    else basenameChars rest (c :: acc)

/-- Basename of a path, as path.Split returns it. -/
def basename (p : String) : String :=
  String.mk (basenameChars p.data [])

/-- The mutable client-side tables of client.go (client_test.go lines
314 to 315): lookupTable from docID to filename and reverseLookup from
filename to docID, modelled as association lists with numeric docIDs. -/
structure ClientState where
  lookupTable : List (Nat × String)
  reverseLookup : List (String × Nat)
deriving DecidableEq

/-- AddFile from client.go (client_test.go lines 360 to 403).  The
server operations it invokes and the local file read live outside this
file, so they are parameters over an abstract server state.  The result
carries the error returned to the caller, if any, together with the
client tables and the server state after the call; the duplicate check
on reverseLookup comes first and returns before any other operation
runs.  The final local copy whose outcome Go ignores touches none of
the modelled state. -/
def AddFile {σ : Type} (readFile : String → Except String Bytes)
    (serverAddFile : σ → Bytes → Except String (Nat × σ))
    (writeLookupTable : σ → List (Nat × String) → σ)
    (buildIndex : Nat → Bytes → SecureIndex)
    (serverWriteIndex : σ → SecureIndex → Except String σ)
    (c : ClientState) (s : σ) (filename : String) :
    Option String × ClientState × σ :=
  let file := basename filename
  match c.reverseLookup.find? (fun kv => kv.1 == file) with
  | some _ => (some "file already exists", c, s)
  | none =>
    match readFile filename with
    | Except.error e => (some e, c, s)
    | Except.ok content =>
      match serverAddFile s content with
      | Except.error e => (some e, c, s)
      | Except.ok (docID, s1) =>
        let c2 : ClientState :=
          { lookupTable := (docID, file) :: c.lookupTable,
            reverseLookup := (file, docID) :: c.reverseLookup }
        let s2 := writeLookupTable s1 c2.lookupTable
        match serverWriteIndex s2 (buildIndex docID content) with
        | Except.error e => (some e, c2, s2)
        | Except.ok s3 => (none, c2, s3)

/-- Sample PRF instantiation used by the concrete evaluations below. -/
def prfDemo : Prf := fun key msg => [(beNat key + 2 * beNat msg) % 251]

/-- Sample builder state used by the concrete evaluations below. -/
def sibDemo : SecureIndexBuilder :=
  { ms := [7], salts := [[1], [2], [3]], size := 17, n := 5 }

/-- Sample builder state agreeing with `sibDemo` on the master secret
and the salts but not on the folder sizing parameters. -/
def sibDemo2 : SecureIndexBuilder :=
  { ms := [7], salts := [[1], [2], [3]], size := 99, n := 0 }

/-- Sample builder state with exactly the fields of `sibDemo`, written
as an independent instance. -/
def sibDemo3 : SecureIndexBuilder :=
  { ms := [7], salts := [[1], [2], [3]], size := 17, n := 5 }

/-- Sample stored index used by the concrete evaluations below. -/
def idxDemo : SecureIndex := { docID := 1, bits := [true, false] }

/-- Sample stand-in for the external grep matcher used by the concrete
evaluations below: token equality on the tokenized content. -/
def gmatchDemo : Bytes → Bytes → Bool :=
  fun content wd => (tokenize content).contains wd

/-- Sample client table used by the concrete evaluations below; the
word 104 occurs as a token of the second document only. -/
def tableDemo : List ClientDoc :=
  [ { docID := 1, filename := "a.txt", content := [104, 105] },
    { docID := 2, filename := "b.txt", content := [104, 32, 105] } ]

/-- Sample client table whose every document contains the word 104 as a
token, used by the concrete evaluations below. -/
def tableDemo2 : List ClientDoc :=
  [ { docID := 1, filename := "a.txt", content := [104, 32, 105] },
    { docID := 2, filename := "b.txt", content := [104, 32, 106] } ]

/-- Sample client tables holding one file, used by the concrete
evaluations below. -/
def clientStateDemo : ClientState :=
  { lookupTable := [(0, "f.txt")], reverseLookup := [("f.txt", 0)] }

/-- Sample local file read used by the concrete evaluations below. -/
def readFileDemo : String → Except String Bytes := fun _ => Except.ok [104, 105]

/-- Sample server file-add operation over a counter state. -/
def serverAddFileDemo : Nat → Bytes → Except String (Nat × Nat) :=
  fun s _ => Except.ok (s, s + 1)

/-- Sample server lookup-table write over a counter state. -/
def writeLookupTableDemo : Nat → List (Nat × String) → Nat := fun s _ => s

/-- Sample index build for the client, reusing the demo builder. -/
def buildIndexDemo : Nat → Bytes → SecureIndex :=
  fun d content => BuildSecureIndex prfDemo sibDemo d content content.length

/-- Sample server index write over a counter state. -/
def serverWriteIndexDemo : Nat → SecureIndex → Except String Nat :=
  fun s _ => Except.ok s

theorem setPositions_cons (bs : List Bool) (i : Nat) (ps : List Nat) :
    setPositions bs (i :: ps) = setPositions (bs.set i true) ps := rfl

theorem length_setPositions (ps : List Nat) (bs : List Bool) :
    (setPositions bs ps).length = bs.length := by
  induction ps generalizing bs with
  | nil => rfl
  | cons i ps ih => rw [setPositions_cons, ih, List.length_set]

theorem bitGet_set_of_true (bs : List Bool) (i p : Nat) (h : bitGet bs p = true) :
    bitGet (bs.set i true) p = true := by
  induction bs generalizing i p with
  | nil => simp [bitGet] at h
  | cons b bs ih =>
    cases i with
    | zero =>
      cases p with
      | zero => simp [bitGet]
      | succ p => simpa [bitGet] using h
    | succ i =>
      cases p with
      | zero => simpa [bitGet] using h
      | succ p => exact ih i p (by simpa [bitGet] using h)

theorem bitGet_set_self (bs : List Bool) (p : Nat) (h : p < bs.length) :
    bitGet (bs.set p true) p = true := by
  induction bs generalizing p with
  | nil => simp at h
  | cons b bs ih =>
    cases p with
    | zero => simp [bitGet]
    | succ p => simpa [bitGet] using ih p (by simpa using h)

theorem bitGet_set_inv (bs : List Bool) (i p : Nat)
    (h : bitGet (bs.set i true) p = true) : p = i ∨ bitGet bs p = true := by
  induction bs generalizing i p with
  | nil => simp [bitGet] at h
  | cons b bs ih =>
    cases i with
    | zero =>
      cases p with
      | zero => left; rfl
      | succ p => right; simpa [bitGet] using h
    | succ i =>
      cases p with
      | zero => right; simpa [bitGet] using h
      | succ p =>
        rcases ih i p (by simpa [bitGet] using h) with h1 | h2
        · left; omega
        · right; simpa [bitGet] using h2

theorem bitGet_setPositions_of_true (ps : List Nat) (bs : List Bool) (p : Nat)
    (h : bitGet bs p = true) : bitGet (setPositions bs ps) p = true := by
  induction ps generalizing bs with
  | nil => exact h
  | cons i ps ih => rw [setPositions_cons]; exact ih _ (bitGet_set_of_true bs i p h)

theorem bitGet_setPositions_of_mem (ps : List Nat) (bs : List Bool) (p : Nat)
    (hp : p ∈ ps) (hl : p < bs.length) : bitGet (setPositions bs ps) p = true := by
  induction ps generalizing bs with
  | nil => simp at hp
  | cons i ps ih =>
    rw [setPositions_cons]
    rcases List.mem_cons.mp hp with h1 | h2
    · subst h1
      exact bitGet_setPositions_of_true ps _ p (bitGet_set_self bs p hl)
    · exact ih _ h2 (by simpa [List.length_set] using hl)

theorem bitGet_setPositions_inv (ps : List Nat) (bs : List Bool) (p : Nat)
    (h : bitGet (setPositions bs ps) p = true) : p ∈ ps ∨ bitGet bs p = true := by
  induction ps generalizing bs with
  | nil => right; exact h
  | cons i ps ih =>
    rw [setPositions_cons] at h
    rcases ih _ h with h1 | h2
    · left; exact List.mem_cons_of_mem i h1
    · rcases bitGet_set_inv bs i p h2 with h3 | h4
      · left; exact h3 ▸ List.mem_cons_self i ps
      · right; exact h4

theorem applyAll_cons (posOf : α → List Nat) (bs : List Bool) (x : α) (xs : List α) :
    applyAll posOf bs (x :: xs) = applyAll posOf (setPositions bs (posOf x)) xs := rfl

theorem length_applyAll (posOf : α → List Nat) (xs : List α) (bs : List Bool) :
    (applyAll posOf bs xs).length = bs.length := by
  induction xs generalizing bs with
  | nil => rfl
  | cons x xs ih => rw [applyAll_cons, ih, length_setPositions]

theorem bitGet_applyAll_of_true (posOf : α → List Nat) (xs : List α) (bs : List Bool)
    (p : Nat) (h : bitGet bs p = true) : bitGet (applyAll posOf bs xs) p = true := by
  induction xs generalizing bs with
  | nil => exact h
  | cons x xs ih =>
    rw [applyAll_cons]
    exact ih _ (bitGet_setPositions_of_true _ bs p h)

theorem bitGet_applyAll_of_mem (posOf : α → List Nat) (xs : List α) (bs : List Bool)
    (x : α) (p : Nat) (hx : x ∈ xs) (hp : p ∈ posOf x) (hl : p < bs.length) :
    bitGet (applyAll posOf bs xs) p = true := by
  induction xs generalizing bs with
  | nil => simp at hx
  | cons y ys ih =>
    rw [applyAll_cons]
    rcases List.mem_cons.mp hx with h1 | h2
    · subst h1
      exact bitGet_applyAll_of_true posOf ys _ p (bitGet_setPositions_of_mem _ bs p hp hl)
    · exact ih _ h2 (by simpa [length_setPositions] using hl)

theorem bitGet_applyAll_inv (posOf : α → List Nat) (xs : List α) (bs : List Bool)
    (p : Nat) (h : bitGet (applyAll posOf bs xs) p = true) :
    (∃ x ∈ xs, p ∈ posOf x) ∨ bitGet bs p = true := by
  induction xs generalizing bs with
  | nil => right; exact h
  | cons y ys ih =>
    rw [applyAll_cons] at h
    rcases ih _ h with h1 | h2
    · rcases h1 with ⟨x, hx, hpx⟩
      left; exact ⟨x, List.mem_cons_of_mem y hx, hpx⟩
    · rcases bitGet_setPositions_inv _ bs p h2 with h3 | h4
      · left; exact ⟨y, List.mem_cons_self y ys, h3⟩
      · right; exact h4

theorem bitGet_replicate_false (m p : Nat) :
    bitGet (List.replicate m false) p = false := by
  induction m generalizing p with
  | zero => rfl
  | succ m ih =>
    cases p with
    | zero => rfl
    | succ p => simp [bitGet, List.replicate]

theorem bits_length_build (prf : Prf) (sib : SecureIndexBuilder) (docID : Nat)
    (content : Bytes) (fileLen : Nat) :
    (BuildSecureIndex prf sib docID content fileLen).bits.length = sib.size := by
  simp [BuildSecureIndex, length_applyAll, List.length_replicate]

theorem docID_build (prf : Prf) (sib : SecureIndexBuilder) (docID : Nat)
    (content : Bytes) (fileLen : Nat) :
    (BuildSecureIndex prf sib docID content fileLen).docID = docID := rfl

theorem applyAll_nil (posOf : α → List Nat) (bs : List Bool) :
    applyAll posOf bs [] = bs := rfl

theorem lookupDoc_mem (table : List ClientDoc) (d : Nat) (e : ClientDoc)
    (h : lookupDoc table d = some e) : e ∈ table ∧ e.docID = d := by
  refine ⟨List.mem_of_find?_eq_some h, ?_⟩
  have := List.find?_some h
  simpa using this

theorem lookupDoc_isSome_of_mem (table : List ClientDoc) (e : ClientDoc)
    (he : e ∈ table) : (lookupDoc table e.docID).isSome = true := by
  rw [lookupDoc, List.find?_isSome]
  exact ⟨e, he, by simp⟩

theorem downloadFiles_ok (table : List ClientDoc) (ds : List Nat)
    (h : ∀ d ∈ ds, (lookupDoc table d).isSome = true) :
    downloadFiles table ds = Except.ok (ds.filterMap (fileOf table)) := by
  induction ds with
  | nil => rfl
  | cons d rest ih =>
    have hd := h d (List.mem_cons_self d rest)
    rcases Option.isSome_iff_exists.mp hd with ⟨e, he⟩
    have hrest := ih (fun x hx => h x (List.mem_cons_of_mem d hx))
    simp [downloadFiles, he, hrest, fileOf, List.filterMap_cons]

theorem mem_grepFiles_filterMap (gmatch : Bytes → Bytes → Bool) (table : List ClientDoc)
    (w : Bytes) (ds : List Nat) (f : String) :
    f ∈ grepFiles gmatch (ds.filterMap (fileOf table)) w ↔
      ∃ d ∈ ds, ∃ e, lookupDoc table d = some e ∧ gmatch e.content w = true ∧
        e.filename = f := by
  constructor
  · intro h
    rcases List.mem_map.mp h with ⟨x, hx, hxf⟩
    rcases List.mem_filter.mp hx with ⟨hxmem, hxg⟩
    rcases List.mem_filterMap.mp hxmem with ⟨d, hd, hfile⟩
    rcases Option.map_eq_some'.mp hfile with ⟨e, he, hex⟩
    subst hex
    exact ⟨d, hd, e, he, hxg, hxf⟩
  · rintro ⟨d, hd, e, he, hg, rfl⟩
    apply List.mem_map.mpr
    refine ⟨(e.filename, e.content), ?_, rfl⟩
    apply List.mem_filter.mpr
    refine ⟨List.mem_filterMap.mpr ⟨d, hd, ?_⟩, hg⟩
    simp [fileOf, he]

theorem filterMap_length_of_isSome {α β : Type} (g : α → Option β) (l : List α)
    (h : ∀ a ∈ l, (g a).isSome = true) : (l.filterMap g).length = l.length := by
  induction l with
  | nil => rfl
  | cons a rest ih =>
    have ha := h a (List.mem_cons_self a rest)
    rcases Option.isSome_iff_exists.mp ha with ⟨b, hb⟩
    have := ih (fun x hx => h x (List.mem_cons_of_mem a hx))
    simp [List.filterMap_cons, hb, this]

theorem addFile_duplicate_err {σ : Type} (readFile : String → Except String Bytes)
    (serverAddFile : σ → Bytes → Except String (Nat × σ))
    (writeLookupTable : σ → List (Nat × String) → σ)
    (buildIndex : Nat → Bytes → SecureIndex)
    (serverWriteIndex : σ → SecureIndex → Except String σ)
    (c : ClientState) (s : σ) (filename : String)
    (hdup : basename filename ∈ c.reverseLookup.map (fun kv => kv.1)) :
    AddFile readFile serverAddFile writeLookupTable buildIndex serverWriteIndex c s filename
      = (some "file already exists", c, s) := by
  rcases List.mem_map.mp hdup with ⟨kv, hkv, hname⟩
  have hsome : (c.reverseLookup.find? (fun x => x.1 == basename filename)).isSome = true := by
    rw [List.find?_isSome]
    exact ⟨kv, hkv, by simp [hname]⟩
  rcases Option.isSome_iff_exists.mp hsome with ⟨kv2, hfind⟩
  simp [AddFile, hfind]

theorem addFile_success_shape {σ : Type} (readFile : String → Except String Bytes)
    (serverAddFile : σ → Bytes → Except String (Nat × σ))
    (writeLookupTable : σ → List (Nat × String) → σ)
    (buildIndex : Nat → Bytes → SecureIndex)
    (serverWriteIndex : σ → SecureIndex → Except String σ)
    (c0 : ClientState) (s0 : σ) (fn : String) (c1 : ClientState) (s1 : σ)
    (h : AddFile readFile serverAddFile writeLookupTable buildIndex serverWriteIndex c0 s0 fn
      = (none, c1, s1)) :
    ∃ docID, c1.reverseLookup = (basename fn, docID) :: c0.reverseLookup := by
  simp only [AddFile] at h
  split at h
  · simp at h
  · split at h
    · simp at h
    · split at h
      · simp at h
      · next docID s2 heq =>
        split at h
        · simp at h
        · simp only [Prod.mk.injEq] at h
          refine ⟨docID, ?_⟩
          rw [← h.2.1]

theorem renameIndex_absent (store : IndexStore) (origID currID : Nat)
    (h : ∀ e ∈ store, e.docID ≠ origID) : RenameIndex store origID currID = store := by
  induction store with
  | nil => rfl
  | cons e es ih =>
    have he := h e (List.mem_cons_self e es)
    have hes : ∀ x ∈ es, x.docID ≠ origID := fun x hx => h x (List.mem_cons_of_mem e hx)
    simp only [RenameIndex] at ih ⊢
    rw [List.map_cons, if_neg he, ih hes]

theorem deleteIndex_absent (store : IndexStore) (d : Nat)
    (h : ∀ e ∈ store, e.docID ≠ d) : DeleteIndex store d = store := by
  induction store with
  | nil => rfl
  | cons e es ih =>
    have he := h e (List.mem_cons_self e es)
    have hes : ∀ x ∈ es, x.docID ≠ d := fun x hx => h x (List.mem_cons_of_mem e hx)
    simp only [DeleteIndex] at ih ⊢
    rw [List.filter_cons, if_pos (by simpa using he), ih hes]

theorem renameIndex_idem (store : IndexStore) (origID currID : Nat) :
    RenameIndex (RenameIndex store origID currID) origID currID
      = RenameIndex store origID currID := by
  simp only [RenameIndex, List.map_map]
  congr 1
  funext e
  by_cases he : e.docID = origID
  · by_cases hc : currID = origID <;> simp [Function.comp, he, hc]
  · simp [Function.comp, he]

theorem deleteIndex_idem (store : IndexStore) (d : Nat) :
    DeleteIndex (DeleteIndex store d) d = DeleteIndex store d := by
  simp only [DeleteIndex, List.filter_filter]
  congr 1
  funext e
  by_cases he : e.docID = d <;> simp [he]

/-- C1: no false negatives.  For every document and every word obtained
by splitting its content on ASCII whitespace, the matcher accepts the
built index with the trapdoor of that word, and the server-side search
over a store holding that index returns a set containing the docID. -/
theorem search_finds_every_document_word (prf : Prf) (sib : SecureIndexBuilder)
    (store : IndexStore) (docID : Nat) (content : Bytes) (fileLen : Nat) (w : Bytes)
    (hM : 0 < sib.size) (hw : w ∈ tokenize content) :
    SearchSecureIndex (BuildSecureIndex prf sib docID content fileLen)
        (ComputeTrapdoors prf sib w) = true ∧
    docID ∈ SearchWord (WriteIndex store (BuildSecureIndex prf sib docID content fileLen))
        (ComputeTrapdoors prf sib w) := by
  have hmatch : SearchSecureIndex (BuildSecureIndex prf sib docID content fileLen)
      (ComputeTrapdoors prf sib w) = true := by
    unfold SearchSecureIndex
    rw [bits_length_build, List.all_eq_true]
    intro p hp
    have hpw : p ∈ wordPositions prf sib w := hp
    have hplt : p < sib.size := by
      rcases List.mem_map.mp hpw with ⟨t, ht, rfl⟩
      exact Nat.mod_lt _ hM
    have hwU : w ∈ (tokenize content).dedup := List.mem_dedup.mpr hw
    show bitGet (BuildSecureIndex prf sib docID content fileLen).bits p = true
    simp only [BuildSecureIndex]
    exact bitGet_applyAll_of_true _ _ _ p
      (bitGet_applyAll_of_mem _ _ _ w p hwU hpw (by simpa using hplt))
  refine ⟨hmatch, ?_⟩
  unfold SearchWord
  apply List.mem_map.mpr
  refine ⟨BuildSecureIndex prf sib docID content fileLen, ?_, rfl⟩
  apply List.mem_filter.mpr
  exact ⟨List.mem_append_right _ (List.mem_singleton_self _), hmatch⟩

theorem search_finds_every_document_word_witness :
    0 < sibDemo.size ∧ [97, 98] ∈ tokenize [97, 98, 32, 99, 100] ∧
    (SearchSecureIndex (BuildSecureIndex prfDemo sibDemo 42 [97, 98, 32, 99, 100] 5)
        (ComputeTrapdoors prfDemo sibDemo [97, 98]) = true ∧
      42 ∈ SearchWord (WriteIndex [] (BuildSecureIndex prfDemo sibDemo 42 [97, 98, 32, 99, 100] 5))
        (ComputeTrapdoors prfDemo sibDemo [97, 98])) :=
  ⟨by decide, by decide,
    search_finds_every_document_word prfDemo sibDemo [] 42 [97, 98, 32, 99, 100] 5 [97, 98]
      (by decide) (by decide)⟩

/-- C3: trapdoor computation is a deterministic function of the master
secret, the ordered salts and the word alone: any two builder instances
agreeing on the master secret and the salts compute byte-for-byte
identical trapdoor tuples for every word, regardless of their remaining
parameters and of which instance runs the computation. -/
theorem trapdoors_deterministic (prf : Prf) (A B : SecureIndexBuilder) (w : Bytes)
    (hms : A.ms = B.ms) (hsalts : A.salts = B.salts) :
    ComputeTrapdoors prf A w = ComputeTrapdoors prf B w := by
  simp [ComputeTrapdoors, hms, hsalts]

theorem trapdoors_deterministic_witness :
    sibDemo.ms = sibDemo2.ms ∧ sibDemo.salts = sibDemo2.salts ∧
    ComputeTrapdoors prfDemo sibDemo [107] = ComputeTrapdoors prfDemo sibDemo2 [107] :=
  ⟨rfl, rfl, trapdoors_deterministic prfDemo sibDemo sibDemo2 [107] rfl rfl⟩

/-- C4: the trapdoor of a word is the ordered tuple with one element
per salt, in salt order, whose element for salt number i is
prf(salt i, prf(MS, word)): the inner PRF keyed by the master secret is
applied to the word, then the outer PRF keyed by each salt separately is
applied to that inner result, so the salts are not folded into a single
PRF call. -/
theorem trapdoors_two_stage (prf : Prf) (sib : SecureIndexBuilder) (w : Bytes) :
    (ComputeTrapdoors prf sib w).length = sib.salts.length ∧
    ∀ i : Nat, (ComputeTrapdoors prf sib w)[i]?
      = (sib.salts[i]?).map (fun s => prf s (prf sib.ms w)) := by
  constructor
  · simp [ComputeTrapdoors]
  · intro i
    simp [ComputeTrapdoors]

/-- C5: building an index is deterministic: any two builder instances
agreeing on the master secret, the salts, the index size M and the
padding parameter n produce byte-identical secure indexes for the same
docID and content; the declared length argument and the instance
identity do not influence the output, and the model has no hidden
randomness because padding is counter-driven. -/
theorem build_deterministic (prf : Prf) (A B : SecureIndexBuilder) (docID : Nat)
    (content : Bytes) (len1 len2 : Nat)
    (hms : A.ms = B.ms) (hsalts : A.salts = B.salts)
    (hsize : A.size = B.size) (hn : A.n = B.n) :
    BuildSecureIndex prf A docID content len1 = BuildSecureIndex prf B docID content len2 := by
  have hAB : A = B := by
    cases A; cases B; simp_all
  subst hAB
  rfl

theorem build_deterministic_witness :
    sibDemo.ms = sibDemo3.ms ∧ sibDemo.salts = sibDemo3.salts ∧
    sibDemo.size = sibDemo3.size ∧ sibDemo.n = sibDemo3.n ∧
    BuildSecureIndex prfDemo sibDemo 42 [97, 32, 98] 3
      = BuildSecureIndex prfDemo sibDemo3 42 [97, 32, 98] 9 :=
  ⟨rfl, rfl, rfl, rfl,
    build_deterministic prfDemo sibDemo sibDemo3 42 [97, 32, 98] 3 9 rfl rfl rfl rfl⟩

/-- C6: for an empty document, one whose content yields no tokens, the
padding count is exactly n, the folder parameter bounding unique words,
and the set bits of the built index are exactly the positions of those n
synthetic pad trapdoors generated from (MS, docID, counter) for the
counters 0 to n - 1. -/
theorem build_empty_padding (prf : Prf) (sib : SecureIndexBuilder) (docID : Nat)
    (content : Bytes) (fileLen : Nat) (hM : 0 < sib.size)
    (hempty : tokenize content = []) :
    sib.n - (tokenize content).dedup.length = sib.n ∧
    ∀ p, bitGet (BuildSecureIndex prf sib docID content fileLen).bits p = true ↔
      ∃ c, c < sib.n ∧ p ∈ padPositions prf sib docID c := by
  have hb : (BuildSecureIndex prf sib docID content fileLen).bits
      = applyAll (padPositions prf sib docID) (List.replicate sib.size false)
          (List.range sib.n) := by
    simp [BuildSecureIndex, hempty, applyAll_nil]
  constructor
  · rw [hempty]; simp
  · intro p
    rw [hb]
    constructor
    · intro h
      rcases bitGet_applyAll_inv _ _ _ _ h with ⟨c, hc, hpc⟩ | habs
      · exact ⟨c, List.mem_range.mp hc, hpc⟩
      · rw [bitGet_replicate_false] at habs
        cases habs
    · rintro ⟨c, hcn, hpc⟩
      have hplt : p < sib.size := by
        rcases List.mem_map.mp hpc with ⟨t, ht, rfl⟩
        exact Nat.mod_lt _ hM
      exact bitGet_applyAll_of_mem _ _ _ c p (List.mem_range.mpr hcn) hpc (by simpa using hplt)

theorem build_empty_padding_witness :
    0 < sibDemo.size ∧ tokenize [32, 9] = [] ∧
    (sibDemo.n - (tokenize [32, 9]).dedup.length = sibDemo.n ∧
      ∀ p, bitGet (BuildSecureIndex prfDemo sibDemo 7 [32, 9] 2).bits p = true ↔
        ∃ c, c < sibDemo.n ∧ p ∈ padPositions prfDemo sibDemo 7 c) :=
  ⟨by decide, by decide, build_empty_padding prfDemo sibDemo 7 [32, 9] 2 (by decide) (by decide)⟩

/-- C7: renaming an absent docID and deleting an absent docID are no-op
successes: the stored mapping is unchanged, and repeating the same
rename or the same delete a second time gives the same store again, so
the repetition also succeeds.  The modelled store operations are total,
matching the no-op-success error policy. -/
theorem rename_delete_absent_noop (store : IndexStore) (origID currID d : Nat)
    (h1 : ∀ e ∈ store, e.docID ≠ origID) (h2 : ∀ e ∈ store, e.docID ≠ d) :
    RenameIndex store origID currID = store ∧
    DeleteIndex store d = store ∧
    RenameIndex (RenameIndex store origID currID) origID currID
      = RenameIndex store origID currID ∧
    DeleteIndex (DeleteIndex store d) d = DeleteIndex store d :=
  ⟨renameIndex_absent store origID currID h1, deleteIndex_absent store d h2,
    renameIndex_idem store origID currID, deleteIndex_idem store d⟩

theorem rename_delete_absent_noop_witness :
    (∀ e ∈ [idxDemo], e.docID ≠ 2) ∧ (∀ e ∈ [idxDemo], e.docID ≠ 4) ∧
    (RenameIndex [idxDemo] 2 3 = [idxDemo] ∧ DeleteIndex [idxDemo] 4 = [idxDemo] ∧
      RenameIndex (RenameIndex [idxDemo] 2 3) 2 3 = RenameIndex [idxDemo] 2 3 ∧
      DeleteIndex (DeleteIndex [idxDemo] 4) 4 = DeleteIndex [idxDemo] 4) :=
  ⟨by decide, by decide, rename_delete_absent_noop [idxDemo] 2 3 4 (by decide) (by decide)⟩

/-- C8: when every candidate docID the server returned is downloadable
and the server candidates are a superset of the docIDs of the stored
documents that the grep check finds the word in, the server-assisted
SearchWord and the naive SearchWordNaive succeed and return the same
set of filenames: both funnel their candidate list through the same
grep-based searchWordHelper, which filters candidates down to the
documents truly containing the word.  The result is stated as set
equality of the filename lists because the two paths list candidates in
different orders; the repository tests sort both results before
comparing them. -/
theorem searchWord_eq_naive (gmatch : Bytes → Bytes → Bool) (table : List ClientDoc)
    (serverResult : List Nat) (w : Bytes)
    (hdl : ∀ d ∈ serverResult, (lookupDoc table d).isSome = true)
    (hsup : ∀ e ∈ table, gmatch e.content w = true → e.docID ∈ serverResult) :
    ∃ fs1 fp1 fs2 fp2,
      ClientSearchWord gmatch table serverResult w = Except.ok (fs1, fp1) ∧
      ClientSearchWordNaive gmatch table w = Except.ok (fs2, fp2) ∧
      ∀ f, f ∈ fs1 ↔ f ∈ fs2 := by
  have hdl2 : ∀ d ∈ table.map (fun e => e.docID), (lookupDoc table d).isSome = true := by
    intro d hd
    rcases List.mem_map.mp hd with ⟨e, he, rfl⟩
    exact lookupDoc_isSome_of_mem table e he
  have h1 := downloadFiles_ok table serverResult hdl
  have h2 := downloadFiles_ok table (table.map (fun e => e.docID)) hdl2
  refine ⟨grepFiles gmatch (serverResult.filterMap (fileOf table)) w,
    divF64 ((serverResult.length : Int)
        - ((grepFiles gmatch (serverResult.filterMap (fileOf table)) w).length : Int))
      ((table.length : Int)
        - ((grepFiles gmatch (serverResult.filterMap (fileOf table)) w).length : Int)),
    grepFiles gmatch ((table.map (fun e => e.docID)).filterMap (fileOf table)) w,
    divF64 (((table.map (fun e => e.docID)).length : Int)
        - ((grepFiles gmatch ((table.map (fun e => e.docID)).filterMap (fileOf table)) w).length : Int))
      ((table.length : Int)
        - ((grepFiles gmatch ((table.map (fun e => e.docID)).filterMap (fileOf table)) w).length : Int)),
    ?_, ?_, ?_⟩
  · simp [ClientSearchWord, searchWordHelper, h1]
  · simp [ClientSearchWordNaive, searchWordHelper, h2]
  · intro f
    rw [mem_grepFiles_filterMap, mem_grepFiles_filterMap]
    constructor
    · rintro ⟨d, hd, e, hle, hg, rfl⟩
      rcases lookupDoc_mem table d e hle with ⟨hmem, hid⟩
      refine ⟨d, ?_, e, hle, hg, rfl⟩
      rw [← hid]
      exact List.mem_map.mpr ⟨e, hmem, rfl⟩
    · rintro ⟨d, hd, e, hle, hg, rfl⟩
      rcases lookupDoc_mem table d e hle with ⟨hmem, hid⟩
      refine ⟨d, ?_, e, hle, hg, rfl⟩
      have := hsup e hmem hg
      rwa [hid] at this

theorem searchWord_eq_naive_witness :
    (∀ d ∈ [2], (lookupDoc tableDemo d).isSome = true) ∧
    (∀ e ∈ tableDemo, gmatchDemo e.content [104] = true → e.docID ∈ [2]) ∧
    (∃ fs1 fp1 fs2 fp2,
      ClientSearchWord gmatchDemo tableDemo [2] [104] = Except.ok (fs1, fp1) ∧
      ClientSearchWordNaive gmatchDemo tableDemo [104] = Except.ok (fs2, fp2) ∧
      ∀ f, f ∈ fs1 ↔ f ∈ fs2) :=
  ⟨by decide, by decide,
    searchWord_eq_naive gmatchDemo tableDemo [2] [104] (by decide) (by decide)⟩

/-- C9: searchWordHelper returns the false-positive rate
(len(possibleDocs) - len(filenames)) / (len(lookupTable) - len(filenames))
with no guard on the denominator: whenever the grep check finds the
word in every document of the lookup table, the naive search succeeds
with a zero denominator and the returned float64 is not a finite
number, here the NaN of the 0/0 division. -/
theorem helper_rate_not_finite (gmatch : Bytes → Bytes → Bool) (table : List ClientDoc)
    (w : Bytes) (hall : ∀ e ∈ table, gmatch e.content w = true) :
    ∃ fs rate, ClientSearchWordNaive gmatch table w = Except.ok (fs, rate) ∧
      (table.length : Int) - (fs.length : Int) = 0 ∧
      rate.isFinite = false ∧ (rate = F64.nan ∨ rate = F64.posInf) := by
  have hdl2 : ∀ d ∈ table.map (fun e => e.docID), (lookupDoc table d).isSome = true := by
    intro d hd
    rcases List.mem_map.mp hd with ⟨e, he, rfl⟩
    exact lookupDoc_isSome_of_mem table e he
  have h2 := downloadFiles_ok table (table.map (fun e => e.docID)) hdl2
  have hsome : ∀ d ∈ table.map (fun e => e.docID), (fileOf table d).isSome = true := by
    intro d hd
    rcases Option.isSome_iff_exists.mp (hdl2 d hd) with ⟨e, he⟩
    simp [fileOf, he]
  have hlenfiles :
      ((table.map (fun e => e.docID)).filterMap (fileOf table)).length = table.length := by
    rw [filterMap_length_of_isSome (fileOf table) _ hsome, List.length_map]
  have hfilter :
      ((table.map (fun e => e.docID)).filterMap (fileOf table)).filter
        (fun x => gmatch x.2 w) = (table.map (fun e => e.docID)).filterMap (fileOf table) := by
    apply List.filter_eq_self.mpr
    intro x hx
    rcases List.mem_filterMap.mp hx with ⟨d, hd, hfile⟩
    rcases Option.map_eq_some'.mp hfile with ⟨e, he, hex⟩
    subst hex
    exact hall e (lookupDoc_mem table d e he).1
  have hfs : (grepFiles gmatch
      ((table.map (fun e => e.docID)).filterMap (fileOf table)) w).length = table.length := by
    rw [grepFiles, hfilter, List.length_map, hlenfiles]
  refine ⟨grepFiles gmatch ((table.map (fun e => e.docID)).filterMap (fileOf table)) w,
    divF64 (((table.map (fun e => e.docID)).length : Int)
        - ((grepFiles gmatch ((table.map (fun e => e.docID)).filterMap (fileOf table)) w).length : Int))
      ((table.length : Int)
        - ((grepFiles gmatch ((table.map (fun e => e.docID)).filterMap (fileOf table)) w).length : Int)),
    ?_, ?_, ?_, ?_⟩
  · simp [ClientSearchWordNaive, searchWordHelper, h2]
  · rw [hfs]; ring
  · rw [hfs, List.length_map]
    simp [divF64, F64.isFinite]
  · rw [hfs, List.length_map]
    simp [divF64]

theorem helper_rate_not_finite_witness :
    (∀ e ∈ tableDemo2, gmatchDemo e.content [104] = true) ∧
    (∃ fs rate, ClientSearchWordNaive gmatchDemo tableDemo2 [104] = Except.ok (fs, rate) ∧
      (tableDemo2.length : Int) - (fs.length : Int) = 0 ∧
      rate.isFinite = false ∧ (rate = F64.nan ∨ rate = F64.posInf)) :=
  ⟨by decide, helper_rate_not_finite gmatchDemo tableDemo2 [104] (by decide)⟩

/-- C10: when the reverseLookup table already holds the basename of the
path given to AddFile, AddFile returns the error file already exists
and leaves the client tables and the server state untouched, whatever
the server operations are, so the server is never contacted; and after
any successful AddFile, calling AddFile again on the same path fails
that way, so adding the same file twice always fails on the second
call. -/
theorem addFile_duplicate {σ : Type} (readFile : String → Except String Bytes)
    (serverAddFile : σ → Bytes → Except String (Nat × σ))
    (writeLookupTable : σ → List (Nat × String) → σ)
    (buildIndex : Nat → Bytes → SecureIndex)
    (serverWriteIndex : σ → SecureIndex → Except String σ)
    (c : ClientState) (s : σ) (filename : String)
    (hdup : basename filename ∈ c.reverseLookup.map (fun kv => kv.1)) :
    AddFile readFile serverAddFile writeLookupTable buildIndex serverWriteIndex c s filename
      = (some "file already exists", c, s) ∧
    ∀ (c0 : ClientState) (s0 : σ) (fn : String) (c1 : ClientState) (s1 : σ),
      AddFile readFile serverAddFile writeLookupTable buildIndex serverWriteIndex c0 s0 fn
        = (none, c1, s1) →
      AddFile readFile serverAddFile writeLookupTable buildIndex serverWriteIndex c1 s1 fn
        = (some "file already exists", c1, s1) := by
  refine ⟨addFile_duplicate_err readFile serverAddFile writeLookupTable buildIndex
    serverWriteIndex c s filename hdup, ?_⟩
  intro c0 s0 fn c1 s1 h
  rcases addFile_success_shape readFile serverAddFile writeLookupTable buildIndex
    serverWriteIndex c0 s0 fn c1 s1 h with ⟨docID, hrl⟩
  apply addFile_duplicate_err
  rw [hrl]
  simp

theorem addFile_duplicate_witness :
    basename "dir/f.txt" ∈ clientStateDemo.reverseLookup.map (fun kv => kv.1) ∧
    (AddFile readFileDemo serverAddFileDemo writeLookupTableDemo buildIndexDemo
        serverWriteIndexDemo clientStateDemo 3 "dir/f.txt"
      = (some "file already exists", clientStateDemo, 3) ∧
    ∀ (c0 : ClientState) (s0 : Nat) (fn : String) (c1 : ClientState) (s1 : Nat),
      AddFile readFileDemo serverAddFileDemo writeLookupTableDemo buildIndexDemo
          serverWriteIndexDemo c0 s0 fn = (none, c1, s1) →
      AddFile readFileDemo serverAddFileDemo writeLookupTableDemo buildIndexDemo
          serverWriteIndexDemo c1 s1 fn = (some "file already exists", c1, s1)) :=
  ⟨by decide,
    addFile_duplicate readFileDemo serverAddFileDemo writeLookupTableDemo buildIndexDemo
      serverWriteIndexDemo clientStateDemo 3 "dir/f.txt" (by decide)⟩

end SearchIndex
